import Mathlib

/-!
Verification development for the field/column abstraction layer and the bulk
import-conversion layer of the OpenERP-style ORM found in this repository
(openerp/osv/fields.py and openerp/addons/base/ir/ir_fields.py).

The Python source is shallowly embedded: each Lean definition below mirrors one
Python function or code path.  Python exceptions are modelled with an explicit
error type threaded through `Except`; only `ValueError` is caught by the
converter loop, exactly as in the source.  Database identifiers are modelled
as natural numbers (PostgreSQL serial ids are positive integers).
-/

namespace MahaErp

/-- Python exception classes that matter for the converter layer.  `valueError`
is the only class the converter loop of `for_model` catches; `typeError`,
`keyError` and `exception` abort the whole record conversion. -/
inductive PyErr where
  | valueError : String → PyErr
  | typeError : String → PyErr
  | keyError : String → PyErr
  | exception : String → PyErr
deriving DecidableEq, Repr

/-- An entry logged on the warning/error sink: either a non-fatal warning
message or a fatal error object (the caught `ValueError`). -/
inductive Issue where
  | warn : String → Issue
  | fatal : PyErr → Issue
deriving DecidableEq, Repr

/-- Scalar values produced by the type-specific converters, as accepted by a
`write()` call. -/
inductive OutValue where
  | obool : Bool → OutValue
  | oint : Int → OutValue
  | ostr : String → OutValue
  | oid : Nat → OutValue
deriving DecidableEq, Repr

/-- The relational command tuples of ir_fields.py lines 22 to 28:
CREATE `(0, False, values)`, UPDATE `(1, id, values)`, DELETE `(2, id, False)`,
FORGET `(3, id, False)`, LINK_TO `(4, id, False)`, DELETE_ALL `(5, False, False)`
and REPLACE_WITH `(6, False, ids)`. -/
inductive Command where
  | create : List (String × OutValue) → Command
  | update : Nat → List (String × OutValue) → Command
  | delete : Nat → Command
  | forget : Nat → Command
  | link_to : Nat → Command
  | delete_all : Command
  | replace_with : List Nat → Command
deriving DecidableEq, Repr

/-- The dispatch table entry `converters[field]` built by `for_model`:
a field name can be absent from the model (dict lookup raises `KeyError`),
mapped to `None` because `to_field` found no converter (calling it raises
`TypeError`), or mapped to an actual converter callable. -/
inductive ConvEntry (β α : Type) where
  | absent : ConvEntry β α
  | noConv : ConvEntry β α
  | conv : (β → Except PyErr (α × List String)) → ConvEntry β α

/-- `REFERENCING_FIELDS = set([None, 'id', '.id'])` membership test.  The key
`none` stands for the Python key `None`. -/
def isRefKey : Option String → Bool
  | none => true
  | some f => f == "id" || f == ".id"

/-- The record-conversion closure `fn` returned by
`ir_fields_converter.for_model` (ir_fields.py lines 72 to 92), with the sink
modelled as a returned list of (field, issue) pairs.  Keys in
`REFERENCING_FIELDS` are skipped, a falsy raw value converts to `False`
without dispatching, a caught `ValueError` is logged and the field omitted,
and any other exception (including calling a `None` converter) propagates. -/
def convRecord {β α : Type} (isF : β → Bool) (falseVal : α)
    (convs : String → ConvEntry β α) :
    List (Option String × β) → Except PyErr (List (String × α) × List (String × Issue))
  | [] => .ok ([], [])
  | (k, v) :: rest =>
    if isRefKey k then convRecord isF falseVal convs rest
    else
      match k with
      | none => convRecord isF falseVal convs rest
      | some f =>
        if isF v then
          match convRecord isF falseVal convs rest with
          | .ok (out, logs) => .ok ((f, falseVal) :: out, logs)
          | .error e => .error e
        else
          match convs f with
          | .absent => .error (.keyError f)
          | .noConv => .error (.typeError "NoneType object is not callable")
          | .conv c =>
            match c v with
            | .ok (r, ws) =>
              match convRecord isF falseVal convs rest with
              | .ok (out, logs) =>
                .ok ((f, r) :: out, ws.map (fun w => (f, Issue.warn w)) ++ logs)
              | .error e => .error e
            | .error (.valueError m) =>
              match convRecord isF falseVal convs rest with
              | .ok (out, logs) => .ok (out, (f, Issue.fatal (.valueError m)) :: logs)
              | .error e => .error e
            | .error e => .error e

/-- The same `fn` closure, but invoked with the raising `log` callback used
inside `_str_to_one2many` (ir_fields.py lines 424 to 427): every fatal issue,
including a caught `ValueError`, is re-raised immediately, and only warning
messages are collected. -/
def convRecordRaise {β α : Type} (isF : β → Bool) (falseVal : α)
    (convs : String → ConvEntry β α) :
    List (Option String × β) → Except PyErr (List (String × α) × List String)
  | [] => .ok ([], [])
  | (k, v) :: rest =>
    if isRefKey k then convRecordRaise isF falseVal convs rest
    else
      match k with
      | none => convRecordRaise isF falseVal convs rest
      | some f =>
        if isF v then
          match convRecordRaise isF falseVal convs rest with
          | .ok (out, ws) => .ok ((f, falseVal) :: out, ws)
          | .error e => .error e
        else
          match convs f with
          | .absent => .error (.keyError f)
          | .noConv => .error (.typeError "NoneType object is not callable")
          | .conv c =>
            match c v with
            | .ok (r, ws) =>
              match convRecordRaise isF falseVal convs rest with
              | .ok (out, ws') => .ok ((f, r) :: out, ws ++ ws')
              | .error e => .error e
            | .error e => .error e

/-- A nested record inside a relational field value: a dictionary whose keys
are either `None` (name reference) or sub-field names, and whose values are
raw strings.  (Nesting is modelled one level deep, which is what the claims
exercise.) -/
abbrev SubRec := List (Option String × String)

/-- Python dict lookup `record[key]` on the association-list model. -/
def recGet (r : SubRec) (k : Option String) : Option String :=
  (r.find? (fun p => p.1 == k)).map Prod.snd

/-- Split a character list on a separator character, keeping empty pieces,
like the Python `str.split` with an explicit separator. -/
def splitOnChar (c : Char) : List Char → List (List Char)
  | [] => [[]]
  | x :: rest =>
    match splitOnChar c rest with
    | [] => if x = c then [[], []] else [[x]]
    | h :: t => if x = c then [] :: h :: t else (x :: h) :: t

/-- `value.split(',')` of Python on the string model. -/
def splitComma (s : String) : List String :=
  (splitOnChar ',' s.toList).map String.mk

/-- Numeric value of a decimal digit list. -/
def natOfDigits (cs : List Char) : ℕ :=
  cs.foldl (fun a c => a * 10 + (c.toNat - 48)) 0

/-- The Python `int(value)` parse used on database-id references, restricted
to plain non-negative decimal notation (database ids are positive). -/
def strToNatOpt (s : String) : Option ℕ :=
  if s.toList ≠ [] ∧ s.toList.all Char.isDigit then some (natOfDigits s.toList)
  else none

/-- `exclude_ref_fields` (ir_fields.py lines 18 to 20). -/
def excludeRefFields (r : SubRec) : SubRec :=
  r.filter (fun p => !(isRefKey p.1))

/-- `only_ref_fields` (ir_fields.py lines 15 to 17). -/
def onlyRefFields (r : SubRec) : SubRec :=
  r.filter (fun p => isRefKey p.1)

/-- `_referencing_subfield` (ir_fields.py lines 362 to 383), acting on the key
set of the record.  A non-referencing key errors first, then more than one
distinct key errors as ambiguous, then the single key is unpacked (unpacking
an empty set raises a `ValueError` in Python). -/
def referencing_subfield (keys : List (Option String)) :
    Except PyErr (Option String × List String) :=
  let fieldset := keys.dedup
  if fieldset.any (fun k => !(isRefKey k)) then
    .error (.valueError "Can not create Many-To-One records indirectly, import the field separately")
  else if fieldset.length > 1 then
    .error (.valueError "Ambiguous specification for field %(field)s, only provide one of name, external id or database id")
  else
    match fieldset with
    | [sub] => .ok (sub, [])
    | _ => .error (.valueError "not enough values to unpack")

/-- The external collaborators used by `db_id_for` for one target comodel:
`existsId` models `RelatedModel.search([('id', '=', v)])`, `refResolve`
models `self.env.ref(xmlid)` (`none` when the external id does not resolve),
`nameSearch` models `RelatedModel.name_search(name=value, operator='=')`
returning the matched ids in relevance order, and `currentModule` is the
`_import_current_module` context value. -/
structure Env where
  existsId : Nat → Bool
  refResolve : String → Option Nat
  nameSearch : String → List Nat
  currentModule : String

/-- `db_id_for` (ir_fields.py lines 284 to 360): resolve one reference value
through the sub-field kind.  `.id` parses the text as an integer and checks
existence (a non-integer text reaches the database and raises a type error,
re-raised as a `ValueError`); `id` namespaces an unqualified external id with
the current import module and resolves it; `None` name-searches, warning and
taking the first result on multiple matches; any other sub-field raises a
plain `Exception`.  An unresolved reference is a fatal `ValueError`. -/
def db_id_for (env : Env) (sub : Option String) (value : String) :
    Except PyErr (Nat × List String) :=
  match sub with
  | some s =>
    if s = ".id" then
      match strToNatOpt value with
      | some n =>
        if env.existsId n then .ok (n, [])
        else .error (.valueError ("No matching record found for database id " ++ value ++ " in field %(field)s"))
      | none => .error (.valueError ("Invalid database id " ++ value ++ " for the field %(field)s"))
    else if s = "id" then
      let xmlid := if value.toList.contains '.' then value
                   else env.currentModule ++ "." ++ value
      match env.refResolve xmlid with
      | some i => .ok (i, [])
      | none => .error (.valueError ("No matching record found for external id " ++ value ++ " in field %(field)s"))
    else .error (.exception ("Unknown sub-field " ++ s))
  | none =>
    match env.nameSearch value with
    | [] => .error (.valueError ("No matching record found for name " ++ value ++ " in field %(field)s"))
    | [i] => .ok (i, [])
    | i :: _ :: rest =>
      .ok (i, ["Found multiple matches for field %(field)s (" ++ toString (rest.length + 2) ++ " matches)"])

/-- The resolution loop of `_str_to_many2many` (ir_fields.py lines 402 to
406): each comma-separated reference is resolved independently, accumulating
ids and warnings; the first failed resolution aborts the whole loop. -/
def m2mResolveLoop (env : Env) (sub : Option String) :
    List String → Except PyErr (List Nat × List String)
  | [] => .ok ([], [])
  | r :: rest =>
    match db_id_for env sub r with
    | .error e => .error e
    | .ok (i, ws) =>
      match m2mResolveLoop env sub rest with
      | .error e => .error e
      | .ok (ids, ws') => .ok (i :: ids, ws ++ ws')

/-- `_str_to_many2many` (ir_fields.py lines 396 to 407): exactly one nested
record is unpacked (otherwise Python raises a `ValueError`), its single
referencing sub-field is determined, its value is split on commas, every
piece is resolved, and a single `REPLACE_WITH` command carries all ids. -/
def str_to_many2many (env : Env) (value : List SubRec) :
    Except PyErr (List Command × List String) :=
  match value with
  | [record] =>
    match referencing_subfield (record.map Prod.fst) with
    | .error e => .error e
    | .ok (sub, ws0) =>
      match m2mResolveLoop env sub (splitComma ((recGet record sub).getD "")) with
      | .error e => .error e
      | .ok (ids, ws) => .ok ([.replace_with ids], ws0 ++ ws)
  | _ => .error (.valueError "too many values to unpack")

/-- The per-record loop of `_str_to_one2many` (ir_fields.py lines 431 to
448): a record carrying referencing sub-fields resolves them to an id and
emits `LINK_TO` plus `UPDATE` with the recursively converted remaining
fields (`CREATE` when the resolved id is falsy); a record without
referencing sub-fields emits `CREATE`.  Recursive conversion uses the
comodel converter with the raising log, so nested fatal issues abort the
whole field. -/
def o2mLoop (env : Env) (subConvs : String → ConvEntry String OutValue) :
    List SubRec → Except PyErr (List Command × List String)
  | [] => .ok ([], [])
  | record :: rest =>
    let step : Except PyErr (Option Nat × List String) :=
      if onlyRefFields record = [] then .ok (none, [])
      else
        match referencing_subfield ((onlyRefFields record).map Prod.fst) with
        | .error e => .error e
        | .ok (sub, w1) =>
          match db_id_for env sub ((recGet record sub).getD "") with
          | .error e => .error e
          | .ok (i, w2) => .ok (some i, w1 ++ w2)
    match step with
    | .error e => .error e
    | .ok (idOpt, w12) =>
      match convRecordRaise (fun s => s = "") (OutValue.obool false) subConvs
          (excludeRefFields record) with
      | .error e => .error e
      | .ok (writable, w3) =>
        match o2mLoop env subConvs rest with
        | .error e => .error e
        | .ok (cmds, ws) =>
          let here := match idOpt with
            | some i =>
              if i ≠ 0 then [Command.link_to i, Command.update i writable]
              else [Command.create writable]
            | none => [Command.create writable]
          .ok (here ++ cmds, w12 ++ w3 ++ ws)

/-- `_str_to_one2many` (ir_fields.py lines 410 to 449).  The special case: a
single nested record containing only referencing sub-fields is expanded from
a comma-separated list into one record per item, mirroring the
many-to-many shorthand; then the per-record loop runs. -/
def str_to_one2many (env : Env) (subConvs : String → ConvEntry String OutValue)
    (records : List SubRec) : Except PyErr (List Command × List String) :=
  match records with
  | [r] =>
    if excludeRefFields r = [] then
      match referencing_subfield (r.map Prod.fst) with
      | .error e => .error e
      | .ok (sub, ws0) =>
        let items := splitComma ((recGet r sub).getD "")
        match o2mLoop env subConvs (items.map (fun it => [(sub, it)])) with
        | .error e => .error e
        | .ok (cmds, ws) => .ok (cmds, ws0 ++ ws)
    else o2mLoop env subConvs records
  | _ => o2mLoop env subConvs records

/-- Configuration of a one2many column relevant to `set`: whether the inverse
many2one field on the comodel has `ondelete == "cascade"`, and the static
domain filter applied when searching the currently linked records. -/
structure O2MCol where
  cascade : Bool
  domain : Nat → Bool

/-- The comodel table seen by `one2many.set`: the existing target records as
`(id, inverse foreign key value)` pairs, the foreign key being `NULL`
(`none`) or a source record id. -/
structure O2MDB where
  recs : List (Nat × Option Nat)
deriving DecidableEq, Repr

/-- `SELECT` of one target record: `none` when the record does not exist. -/
def o2mLookup (db : O2MDB) (i : Nat) : Option (Option Nat) :=
  (db.recs.find? (fun r => r.1 == i)).map Prod.snd

def o2mExists (db : O2MDB) (i : Nat) : Bool :=
  (o2mLookup db i).isSome

/-- `int(rec[fields_id])`: a `NULL` foreign key reads as `False`, and
`int(False) == 0` in Python. -/
def fkToNat : Option Nat → Nat
  | none => 0
  | some n => n

/-- `UPDATE comodel SET fields_id = v WHERE id = i` (no error on a missing
row, exactly like the raw SQL statements in `one2many.set`). -/
def o2mSetFk (db : O2MDB) (i : Nat) (v : Option Nat) : O2MDB :=
  ⟨db.recs.map (fun r => if r.1 = i then (r.1, v) else r)⟩

/-- A fresh id for `obj.create`. -/
def o2mFresh (db : O2MDB) : Nat :=
  db.recs.foldl (fun m r => max m r.1) 0 + 1

/-- One command step of `one2many.set` (fields.py lines 785 to 840), for
source record `src`.  CREATE writes the inverse key into the values and
creates; UPDATE writes the values to an existing record (the converted
values never contain the inverse key, so the link set is unaffected);
DELETE unlinks the record; FORGET deletes under cascade and nullifies the
inverse key otherwise; LINK_TO reads the record (raising on a missing one)
and writes the inverse key only when it does not already point at `src`;
DELETE_ALL searches the linked records through the static domain and deletes
or nullifies them by policy; REPLACE_WITH bulk-writes the inverse key on the
given ids (raising if any is missing) and then nullifies every other linked
record (`act[2] or [0]` guards the empty list with the impossible id 0). -/
def o2mApplyCmd (col : O2MCol) (src : Nat) (db : O2MDB) :
    Command → Except PyErr O2MDB
  | .create _vals => .ok ⟨db.recs ++ [(o2mFresh db, some src)]⟩
  | .update i _vals =>
    if o2mExists db i then .ok db else .error (.exception "MissingError")
  | .delete i => .ok ⟨db.recs.filter (fun r => r.1 ≠ i)⟩
  | .forget i =>
    if col.cascade then .ok ⟨db.recs.filter (fun r => r.1 ≠ i)⟩
    else .ok (o2mSetFk db i none)
  | .link_to i =>
    match o2mLookup db i with
    | none => .error (.exception "MissingError")
    | some fk =>
      if fkToNat fk ≠ src then .ok (o2mSetFk db i (some src)) else .ok db
  | .delete_all =>
    if col.cascade then
      .ok ⟨db.recs.filter (fun r => !(r.2 == some src && col.domain r.1))⟩
    else
      .ok ⟨db.recs.map (fun r =>
        if r.2 = some src ∧ col.domain r.1 then (r.1, none) else r)⟩
  | .replace_with l =>
    if l.all (o2mExists db) then
      let db1 : O2MDB :=
        ⟨db.recs.map (fun r => if r.1 ∈ l then (r.1, some src) else r)⟩
      let ids2 := if l.isEmpty then [0] else l
      .ok ⟨db1.recs.map (fun r =>
        if r.2 = some src ∧ r.1 ∉ ids2 then (r.1, none) else r)⟩
    else .error (.exception "MissingError")

/-- `one2many.set` over a command list, processed strictly in order. -/
def o2mApply (col : O2MCol) (src : Nat) (db : O2MDB)
    (cmds : List Command) : Except PyErr O2MDB :=
  cmds.foldlM (o2mApplyCmd col src) db

/-- The one2many link set: ids of the target records whose inverse foreign
key points at `src`. -/
def o2mLinked (db : O2MDB) (src : Nat) : List Nat :=
  (db.recs.filter (fun r => r.2 == some src)).map Prod.fst

/-- The state seen by `many2many.set`: the existing target records and the
rows of the intermediary relation table `(id1, id2)`.  Access rules are
modelled as fully permissive. -/
structure M2MDB where
  targets : List Nat
  rel : List (Nat × Nat)
deriving DecidableEq, Repr

def m2mFresh (db : M2MDB) : Nat :=
  db.targets.foldl max 0 + 1

/-- The `link` helper of `many2many.set` (fields.py lines 1010 to 1016) on a
single id: `INSERT ... EXCEPT (SELECT id1, id2 FROM rel WHERE id1 = src)`
inserts the pair only when no identical row exists; a foreign key violation
on a missing target raises. -/
def m2mLinkOne (src : Nat) (db : M2MDB) (i : Nat) : Except PyErr M2MDB :=
  if i ∈ db.targets then
    if (src, i) ∈ db.rel then .ok db
    else .ok ⟨db.targets, db.rel ++ [(src, i)]⟩
  else .error (.exception "IntegrityError")

/-- The `link` helper on an id list (the chunked `INSERT ... EXCEPT`
statements insert each not-yet-present pair exactly once, in order). -/
def m2mLink (src : Nat) (db : M2MDB) (ids : List Nat) : Except PyErr M2MDB :=
  ids.foldlM (m2mLinkOne src) db

/-- The `unlink_all` helper (fields.py lines 1018 to 1026): delete the
relation rows of `src` whose target row joins (access rules permissive). -/
def m2mUnlinkAll (src : Nat) (db : M2MDB) : M2MDB :=
  ⟨db.targets, db.rel.filter (fun p => !(p.1 == src && p.2 ∈ db.targets))⟩

/-- One command step of `many2many.set` (fields.py lines 1028 to 1046):
CREATE inserts a fresh target and a plain relation row; UPDATE writes values
to the target (relation unaffected); DELETE unlinks the target, the relation
rows following by `ON DELETE CASCADE`; FORGET deletes the one relation row;
LINK_TO is `link([id])`; DELETE_ALL is `unlink_all()`; REPLACE_WITH is
`unlink_all()` then `link(ids)`. -/
def m2mApplyCmd (src : Nat) (db : M2MDB) : Command → Except PyErr M2MDB
  | .create _vals =>
    let n := m2mFresh db
    .ok ⟨db.targets ++ [n], db.rel ++ [(src, n)]⟩
  | .update i _vals =>
    if i ∈ db.targets then .ok db else .error (.exception "MissingError")
  | .delete i =>
    .ok ⟨db.targets.filter (fun t => t ≠ i), db.rel.filter (fun p => p.2 ≠ i)⟩
  | .forget i =>
    .ok ⟨db.targets, db.rel.filter (fun p => !(p.1 == src && p.2 == i))⟩
  | .link_to i => m2mLinkOne src db i
  | .delete_all => .ok (m2mUnlinkAll src db)
  | .replace_with l => m2mLink src (m2mUnlinkAll src db) l

/-- `many2many.set` over a command list, processed strictly in order. -/
def m2mApply (src : Nat) (db : M2MDB) (cmds : List Command) :
    Except PyErr M2MDB :=
  cmds.foldlM (m2mApplyCmd src) db

/-- The many2many link set of `src`: second components of its relation
rows. -/
def m2mLinked (db : M2MDB) (src : Nat) : List Nat :=
  (db.rel.filter (fun p => p.1 == src)).map Prod.snd

/-- The keyword arguments accepted by `_column.__init__` (fields.py lines 117
to 154): the explicit parameters, the extra keyword arguments with defaults
applied by `__init__`, and the open attribute bag for any remaining extra
keyword arguments. -/
structure ColArgs where
  string : String
  required : Bool
  readonly : Bool
  domain : List String
  context : List (String × String)
  states : Option String
  priority : Int
  change_default : Bool
  size : Option Nat
  ondelete : Option String
  translate : Bool
  select : Bool
  manual : Bool
  copy : Bool
  help : String
  write : Bool
  read : Bool
  selectable : Bool
  group_operator : Option String
  groups : Option String
  deprecated : Option String
  prefetch : Bool
  extra : List (String × String)
deriving DecidableEq, Repr

/-- The keyword-argument record with every `__init__` default. -/
def defaultColArgs : ColArgs :=
  ⟨"unknown", false, false, [], [], none, 0, false, none, none,
   false, false, false, true, "", false, false, true, none, none, none,
   true, []⟩

/-- A column descriptor instance after `_column.__init__`: the stored
attributes.  `classic_write` is the class-level flag consulted by the
prefetch rule. -/
structure Column where
  classic_write : Bool
  string : String
  required : Bool
  readonly : Bool
  domain : List String
  context : List (String × String)
  states : Option String
  priority : Int
  change_default : Bool
  size : Option Nat
  ondelete : Option String
  translate : Bool
  select : Bool
  manual : Bool
  copy : Bool
  help : String
  write : Bool
  read : Bool
  selectable : Bool
  group_operator : Option String
  groups : Option String
  deprecated : Option String
  prefetch : Bool
  extra : List (String × String)
deriving DecidableEq, Repr

/-- `_column.__init__`: defaults are the callers responsibility here (they
live in `ColArgs`); `ondelete` is lowercased when truthy and `None`
otherwise, and prefetching is disabled for non-classic-write, deprecated or
manual columns. -/
def mkColumn (cw : Bool) (a : ColArgs) : Column :=
  { classic_write := cw
    string := a.string
    required := a.required
    readonly := a.readonly
    domain := a.domain
    context := a.context
    states := a.states
    priority := a.priority
    change_default := a.change_default
    size := a.size
    ondelete := match a.ondelete with
      | some s => if s = "" then none else some s.toLower
      | none => none
    translate := a.translate
    select := a.select
    manual := a.manual
    copy := a.copy
    help := a.help
    write := a.write
    read := a.read
    selectable := a.selectable
    group_operator := a.group_operator
    groups := a.groups
    deprecated := a.deprecated
    prefetch := if !cw || a.deprecated.isSome || a.manual then false else a.prefetch
    extra := a.extra }

/-- The externally-visible attribute dictionary built by
`_column.to_field_args` (fields.py lines 196 to 219).  The `base_items` keys
are always present; the `truthy_items` keys are present only with a truthy
value, here normalised so that an absent key and a falsy value coincide;
`_args` items are appended. -/
structure FieldArgs where
  copy : Bool
  index : Bool
  manual : Bool
  string : String
  help : String
  readonly : Bool
  required : Bool
  states : Option String
  groups : Option String
  change_default : Bool
  deprecated : Option String
  group_operator : Option String
  size : Option Nat
  ondelete : Option String
  translate : Bool
  domain : List String
  context : List (String × String)
  extra : List (String × String)
deriving DecidableEq, Repr

/-- Truthiness filter for optional string attributes in `truthy_items`. -/
def truthyOptStr : Option String → Option String
  | some "" => none
  | x => x

/-- Truthiness filter for the `size` attribute in `truthy_items`. -/
def truthyOptNat : Option Nat → Option Nat
  | some 0 => none
  | x => x

/-- `_column.to_field_args`. -/
def toFieldArgs (c : Column) : FieldArgs :=
  { copy := c.copy
    index := c.select
    manual := c.manual
    string := c.string
    help := c.help
    readonly := c.readonly
    required := c.required
    states := c.states
    groups := c.groups
    change_default := c.change_default
    deprecated := c.deprecated
    group_operator := truthyOptStr c.group_operator
    size := truthyOptNat c.size
    ondelete := truthyOptStr c.ondelete
    translate := c.translate
    domain := c.domain
    context := c.context
    extra := c.extra }

/-- `_column.new` (fields.py lines 182 to 189): build a column of the same
class from the parameters and return the original instance when the
externally-visible attribute sets compare equal (the memory optimisation),
otherwise the freshly built one. -/
def Column.new (self : Column) (args : ColArgs) : Column :=
  let column := mkColumn self.classic_write args
  if toFieldArgs self = toFieldArgs column then self else column

/-- Modelled from the spec: `float_round` of openerp.tools (imported by
fields.py but not under src/), which rounds a number half-up to the
configured decimal scale.  Numbers are modelled as exact rationals. -/
def float_round (q : ℚ) (scale : ℕ) : ℚ :=
  ((round (q * (10 : ℚ) ^ scale) : ℤ) : ℚ) / (10 : ℚ) ^ scale

/-- Left-pad a digit string with zeros up to the given width. -/
def padLeftZeros (s : String) (n : ℕ) : String :=
  String.mk (List.replicate (n - s.length) '0') ++ s

/-- Modelled from the spec: `float_repr` of openerp.tools (imported by
fields.py but not under src/), which serialises a value at the fixed decimal
scale rather than at floating-point natural precision. -/
def float_repr (q : ℚ) (scale : ℕ) : String :=
  let n : ℤ := round (q * (10 : ℚ) ^ scale)
  let sign := if n < 0 then "-" else ""
  let m := n.natAbs
  if scale = 0 then sign ++ toString m
  else sign ++ toString (m / 10 ^ scale) ++ "." ++
    padLeftZeros (toString (m % 10 ^ scale)) scale

/-- The value handed to the database driver by `_symbol_set_float`: either
the raw number (no digits configured) or the fixed-scale text. -/
inductive SqlFloat where
  | num : ℚ → SqlFloat
  | str : String → SqlFloat
deriving DecidableEq, Repr

/-- `_symbol_set_float` (fields.py lines 379 to 385): `x or 0.0`, then when a
`(precision, scale)` pair is configured, round to the scale and serialise at
that fixed scale. -/
def symbol_set_float (digits : Option (ℕ × ℕ)) (x : Option ℚ) : SqlFloat :=
  let result : ℚ := match x with
    | none => 0
    | some q => q
  match digits with
  | some ps => .str (float_repr (float_round result ps.2) ps.2)
  | none => .num result

/-- Modelled from the spec: the locale-free textual number parse performed by
the Python builtin `float` inside `_str_to_float`, restricted to plain
decimal notation and modelled exactly over the rationals. -/
def parse_decimal (s : String) : Option ℚ :=
  let core : List Char → Option ℚ := fun body =>
    match splitOnChar '.' body with
    | [ip] =>
      if ip ≠ [] ∧ ip.all Char.isDigit then some (natOfDigits ip : ℚ)
      else none
    | [ip, fp] =>
      if (ip ≠ [] ∨ fp ≠ []) ∧ ip.all Char.isDigit ∧ fp.all Char.isDigit then
        some ((natOfDigits ip : ℚ) + (natOfDigits fp : ℚ) / (10 : ℚ) ^ fp.length)
      else none
    | _ => none
  match s.toList with
  | '-' :: rest => (core rest).map Neg.neg
  | '+' :: rest => core rest
  | cs => core cs

/-- `_str_to_float` (ir_fields.py lines 183 to 191): parse the text, with no
warnings on success and a fatal `ValueError` naming the text on failure. -/
def str_to_float (value : String) : Except PyErr (ℚ × List String) :=
  match parse_decimal value with
  | some q => .ok (q, [])
  | none => .error (.valueError (value ++ " does not seem to be a number for field %(field)s"))

/-- Success test on an `Except` result. -/
def isOkE {ε γ : Type} : Except ε γ → Bool
  | .ok _ => true
  | .error _ => false

/-- Decidable equality of `Except` results. -/
def exceptDecEq {ε γ : Type} [DecidableEq ε] [DecidableEq γ] :
    DecidableEq (Except ε γ) := fun x y =>
  match x, y with
  | .ok a, .ok b =>
    if h : a = b then isTrue (by rw [h]) else isFalse (by simp [h])
  | .error a, .error b =>
    if h : a = b then isTrue (by rw [h]) else isFalse (by simp [h])
  | .ok _, .error _ => isFalse (by simp)
  | .error _, .ok _ => isFalse (by simp)

instance {ε γ : Type} [DecidableEq ε] [DecidableEq γ] :
    DecidableEq (Except ε γ) := exceptDecEq

/-- Rounding to a fixed scale is idempotent: a value already at scale `s`
rounds to itself. -/
theorem float_round_idem (q : ℚ) (s : ℕ) :
    float_round (float_round q s) s = float_round q s := by
  unfold float_round
  have h10 : ((10 : ℚ) ^ s) ≠ 0 := by positivity
  rw [div_mul_cancel₀ _ h10, round_intCast]

/-- Claim C8: converting the text 12.345 for a float field succeeds with no
warnings; encoding the converted value with a configured scale of 2 rounds
and serialises to the fixed-scale text 12.35; encoding is stable after one
encode/decode pass, since a value already rounded to the scale encodes to
the same serialised result as the original; and concretely, decoding the
stored text 12.35 and re-encoding it reproduces 12.35. -/
theorem C8_float_scale_stable :
    str_to_float "12.345" = .ok (12345 / 1000, []) ∧
    symbol_set_float (some (16, 2)) (some (12345 / 1000)) = .str "12.35" ∧
    (∀ (q : ℚ) (p s : ℕ),
      symbol_set_float (some (p, s)) (some (float_round q s)) =
        symbol_set_float (some (p, s)) (some q)) ∧
    parse_decimal "12.35" = some (1235 / 100) ∧
    symbol_set_float (some (16, 2)) (some (1235 / 100)) = .str "12.35" := by
  have hp1 : parse_decimal "12.345" = some (12345 / 1000 : ℚ) := by
    have h : parse_decimal "12.345" =
        some ((natOfDigits ['1', '2'] : ℚ) +
          (natOfDigits ['3', '4', '5'] : ℚ) / (10 : ℚ) ^ (3 : ℕ)) := rfl
    rw [h, show (natOfDigits ['1', '2'] : ℕ) = 12 from by decide,
      show (natOfDigits ['3', '4', '5'] : ℕ) = 345 from by decide]
    norm_num
  have hp2 : parse_decimal "12.35" = some (1235 / 100 : ℚ) := by
    have h : parse_decimal "12.35" =
        some ((natOfDigits ['1', '2'] : ℚ) +
          (natOfDigits ['3', '5'] : ℚ) / (10 : ℚ) ^ (2 : ℕ)) := rfl
    rw [h, show (natOfDigits ['1', '2'] : ℕ) = 12 from by decide,
      show (natOfDigits ['3', '5'] : ℕ) = 35 from by decide]
    norm_num
  have hr1 : float_round (12345 / 1000 : ℚ) 2 = 1235 / 100 := by
    unfold float_round
    rw [show round ((12345 / 1000 : ℚ) * (10 : ℚ) ^ (2 : ℕ)) = 1235 from by
      norm_num [round_eq]]
    norm_num
  have hr2 : float_round (1235 / 100 : ℚ) 2 = 1235 / 100 := by
    unfold float_round
    rw [show round ((1235 / 100 : ℚ) * (10 : ℚ) ^ (2 : ℕ)) = 1235 from by
      norm_num [round_eq]]
    norm_num
  have hrepr : float_repr (1235 / 100 : ℚ) 2 = "12.35" := by
    simp only [float_repr]
    rw [show round ((1235 / 100 : ℚ) * (10 : ℚ) ^ (2 : ℕ)) = 1235 from by
      norm_num [round_eq]]
    decide
  refine ⟨?_, ?_, ?_, hp2, ?_⟩
  · simp [str_to_float, hp1]
  · simp only [symbol_set_float]
    rw [hr1, hrepr]
  · intro q p s
    simp only [symbol_set_float, float_round_idem]
  · simp only [symbol_set_float]
    rw [hr2, hrepr]

/-- Claim C5: a relational reference record with two or more distinct
referencing sub-fields fails with the ambiguous-specification fatal error,
and a record with any sub-field outside the referencing set fails with a
fatal error as well. -/
theorem C5_reference_subfield_errors (keys : List (Option String)) :
    ((∀ k ∈ keys, isRefKey k = true) → 2 ≤ keys.dedup.length →
      referencing_subfield keys = .error (.valueError
        "Ambiguous specification for field %(field)s, only provide one of name, external id or database id")) ∧
    ((∃ k ∈ keys, isRefKey k = false) →
      referencing_subfield keys = .error (.valueError
        "Can not create Many-To-One records indirectly, import the field separately")) := by
  constructor
  · intro hall hlen
    have hany : (keys.dedup.any fun k => !(isRefKey k)) = false := by
      simp only [List.any_eq_false]
      intro k hk
      simp [hall k (List.mem_dedup.mp hk)]
    have hlen' : keys.dedup.length > 1 := by omega
    simp [referencing_subfield, hany, hlen']
  · rintro ⟨k, hk, hkref⟩
    have hany : (keys.dedup.any fun k => !(isRefKey k)) = true :=
      List.any_eq_true.mpr ⟨k, List.mem_dedup.mpr hk, by simp [hkref]⟩
    simp [referencing_subfield, hany]

/-- Witness for C5 at concrete inputs: two referencing sub-fields, and one
unrelated sub-field. -/
theorem C5_witness :
    referencing_subfield [some "id", some ".id"] = .error (.valueError
      "Ambiguous specification for field %(field)s, only provide one of name, external id or database id") ∧
    referencing_subfield [some "name"] = .error (.valueError
      "Can not create Many-To-One records indirectly, import the field separately") :=
  ⟨(C5_reference_subfield_errors [some "id", some ".id"]).1 (by decide) (by decide),
   (C5_reference_subfield_errors [some "name"]).2 ⟨some "name", by decide, by decide⟩⟩

/-- Claim C7 (evaluation at the failing input): a field whose dispatch entry
is `None` because no converter is registered makes the record-conversion
closure raise an uncaught `TypeError` when the raw value is truthy, aborting
the whole record, instead of being skipped; with a falsy raw value the field
converts to `False` without dispatching. -/
theorem C7_none_converter_raises :
    convRecord (fun s => s = "") (OutValue.obool false)
      (fun _ => ConvEntry.noConv) [(some "a", "x")] =
      .error (.typeError "NoneType object is not callable") ∧
    convRecord (fun s => s = "") (OutValue.obool false)
      (fun _ => ConvEntry.noConv) [(some "a", "")] =
      .ok ([("a", OutValue.obool false)], []) := by
  constructor <;> rfl

/-- Claim C9: column specialisation through `new` returns a column whose
externally-visible attribute set always equals that of a column freshly
built from the parameters (so two semantically different descriptors are
never merged), returns the very same descriptor exactly when the
externally-visible attribute sets compare equal, and otherwise returns the
freshly built descriptor. -/
theorem C9_new_shares_iff_visible_equal (self : Column) (args : ColArgs) :
    (toFieldArgs (Column.new self args) =
      toFieldArgs (mkColumn self.classic_write args)) ∧
    (toFieldArgs self = toFieldArgs (mkColumn self.classic_write args) →
      Column.new self args = self) ∧
    (toFieldArgs self ≠ toFieldArgs (mkColumn self.classic_write args) →
      Column.new self args = mkColumn self.classic_write args) := by
  unfold Column.new
  by_cases h : toFieldArgs self = toFieldArgs (mkColumn self.classic_write args) <;>
    simp [h]

/-- Witness for C9: with identical parameters `new` shares the instance, and
with a changed visible attribute it returns the fresh column. -/
theorem C9_witness :
    Column.new (mkColumn true defaultColArgs) defaultColArgs =
      mkColumn true defaultColArgs ∧
    Column.new (mkColumn true defaultColArgs)
      ⟨"changed", false, false, [], [], none, 0, false, none, none,
       false, false, false, true, "", false, false, true, none, none, none,
       true, []⟩ =
      mkColumn true
      ⟨"changed", false, false, [], [], none, 0, false, none, none,
       false, false, false, true, "", false, false, true, none, none, none,
       true, []⟩ :=
  ⟨(C9_new_shares_iff_visible_equal (mkColumn true defaultColArgs)
      defaultColArgs).2.1 (by decide),
   (C9_new_shares_iff_visible_equal (mkColumn true defaultColArgs) _).2.2
      (by decide)⟩

/-- What one record entry contributes to the converted output of the
`for_model` closure: nothing for referencing keys, converter-less fields and
fatal failures, `False` for falsy values, the converted value otherwise. -/
def entryOut {β α : Type} (isF : β → Bool) (falseVal : α)
    (convs : String → ConvEntry β α) (p : Option String × β) :
    Option (String × α) :=
  match p.1 with
  | none => none
  | some f =>
    if isRefKey (some f) then none
    else if isF p.2 then some (f, falseVal)
    else
      match convs f with
      | .conv c =>
        match c p.2 with
        | .ok (r, _) => some (f, r)
        | .error _ => none
      | _ => none

/-- What one record entry contributes to the sink of the `for_model`
closure: the converter warnings on success, the caught fatal error on a
`ValueError`. -/
def entryLogs {β α : Type} (isF : β → Bool)
    (convs : String → ConvEntry β α) (p : Option String × β) :
    List (String × Issue) :=
  match p.1 with
  | none => []
  | some f =>
    if isRefKey (some f) then []
    else if isF p.2 then []
    else
      match convs f with
      | .conv c =>
        match c p.2 with
        | .ok (_, ws) => ws.map (fun w => (f, Issue.warn w))
        | .error (.valueError m) => [(f, Issue.fatal (.valueError m))]
        | .error _ => []
      | _ => []

/-- An entry that cannot abort the record conversion: skipped, falsy, or
dispatched to a converter that succeeds or raises only a `ValueError`. -/
def entryBenign {β α : Type} (isF : β → Bool)
    (convs : String → ConvEntry β α) (p : Option String × β) : Bool :=
  match p.1 with
  | none => true
  | some f =>
    isRefKey (some f) || isF p.2 ||
      (match convs f with
       | .conv c =>
         match c p.2 with
         | .ok _ => true
         | .error (.valueError _) => true
         | .error _ => false
       | _ => false)

/-- When the record conversion succeeds, the converted output and the logged
issues are exactly the entry-wise contributions, in record order. -/
theorem convRecord_shape {β α : Type} (isF : β → Bool) (falseVal : α)
    (convs : String → ConvEntry β α) :
    ∀ record out logs, convRecord isF falseVal convs record = .ok (out, logs) →
      out = record.filterMap (entryOut isF falseVal convs) ∧
      logs = record.flatMap (entryLogs isF convs) := by
  intro record
  induction record with
  | nil =>
    intro out logs h
    simp only [convRecord, Except.ok.injEq, Prod.mk.injEq] at h
    obtain ⟨h1, h2⟩ := h
    simp [h1.symm, h2.symm]
  | cons p rest ih =>
    obtain ⟨k, v⟩ := p
    intro out logs h
    cases hk : isRefKey k with
    | true =>
      simp only [convRecord, hk, if_true] at h
      obtain ⟨h1, h2⟩ := ih out logs h
      have hko : entryOut isF falseVal convs (k, v) = none := by
        cases k with
        | none => rfl
        | some f => simp [entryOut, hk]
      have hkl : entryLogs isF convs (k, v) = [] := by
        cases k with
        | none => rfl
        | some f => simp [entryLogs, hk]
      constructor
      · rw [h1, List.filterMap_cons, hko]
      · rw [h2, List.flatMap_cons, hkl, List.nil_append]
    | false =>
      cases k with
      | none => simp [isRefKey] at hk
      | some f =>
        simp only [convRecord, hk, Bool.false_eq_true, if_false] at h
        by_cases hfv : isF v
        · rw [if_pos hfv] at h
          cases hrest : convRecord isF falseVal convs rest with
          | ok pr =>
            obtain ⟨out', logs'⟩ := pr
            rw [hrest] at h
            simp only [Except.ok.injEq, Prod.mk.injEq] at h
            obtain ⟨h1, h2⟩ := h
            obtain ⟨h3, h4⟩ := ih out' logs' hrest
            constructor
            · rw [← h1, h3, List.filterMap_cons]
              simp [entryOut, hk, hfv]
            · rw [← h2, h4, List.flatMap_cons]
              simp [entryLogs, hk, hfv]
          | error e => rw [hrest] at h; exact absurd h (by simp)
        · rw [if_neg hfv] at h
          cases hc : convs f with
          | absent => rw [hc] at h; exact absurd h (by simp)
          | noConv => rw [hc] at h; exact absurd h (by simp)
          | conv c =>
            rw [hc] at h
            dsimp only at h
            cases hcv : c v with
            | ok pr =>
              obtain ⟨r, ws⟩ := pr
              rw [hcv] at h
              dsimp only at h
              cases hrest : convRecord isF falseVal convs rest with
              | ok pr' =>
                obtain ⟨out', logs'⟩ := pr'
                rw [hrest] at h
                simp only [Except.ok.injEq, Prod.mk.injEq] at h
                obtain ⟨h1, h2⟩ := h
                obtain ⟨h3, h4⟩ := ih out' logs' hrest
                constructor
                · rw [← h1, h3, List.filterMap_cons]
                  simp [entryOut, hk, hfv, hc, hcv]
                · rw [← h2, h4, List.flatMap_cons]
                  simp [entryLogs, hk, hfv, hc, hcv]
              | error e => rw [hrest] at h; exact absurd h (by simp)
            | error e =>
              cases e with
              | valueError m =>
                rw [hcv] at h
                dsimp only at h
                cases hrest : convRecord isF falseVal convs rest with
                | ok pr' =>
                  obtain ⟨out', logs'⟩ := pr'
                  rw [hrest] at h
                  simp only [Except.ok.injEq, Prod.mk.injEq] at h
                  obtain ⟨h1, h2⟩ := h
                  obtain ⟨h3, h4⟩ := ih out' logs' hrest
                  constructor
                  · rw [← h1, h3, List.filterMap_cons]
                    simp [entryOut, hk, hfv, hc, hcv]
                  · rw [← h2, h4, List.flatMap_cons]
                    simp [entryLogs, hk, hfv, hc, hcv]
                | error e' => rw [hrest] at h; exact absurd h (by simp)
              | typeError m => rw [hcv] at h; exact absurd h (by simp)
              | keyError m => rw [hcv] at h; exact absurd h (by simp)
              | exception m => rw [hcv] at h; exact absurd h (by simp)

/-- A record whose entries are all benign converts without raising. -/
theorem convRecord_ok_of_benign {β α : Type} (isF : β → Bool) (falseVal : α)
    (convs : String → ConvEntry β α) :
    ∀ record, (∀ p ∈ record, entryBenign isF convs p = true) →
      ∃ out logs, convRecord isF falseVal convs record = .ok (out, logs) := by
  intro record
  induction record with
  | nil => exact fun _ => ⟨[], [], rfl⟩
  | cons p rest ih =>
    obtain ⟨k, v⟩ := p
    intro hben
    have hrest := ih (fun q hq => hben q (List.mem_cons_of_mem _ hq))
    obtain ⟨out', logs', hrest⟩ := hrest
    have hhead := hben (k, v) (List.mem_cons_self _ _)
    cases hk : isRefKey k with
    | true => exact ⟨out', logs', by simp only [convRecord, hk, if_true]; exact hrest⟩
    | false =>
      cases k with
      | none => simp [isRefKey] at hk
      | some f =>
        by_cases hfv : isF v
        · refine ⟨(f, falseVal) :: out', logs', ?_⟩
          simp only [convRecord, hk, Bool.false_eq_true, if_false, if_pos hfv, hrest]
        · simp only [entryBenign, hk, hfv, Bool.false_or] at hhead
          cases hc : convs f with
          | absent => rw [hc] at hhead; simp at hhead
          | noConv => rw [hc] at hhead; simp at hhead
          | conv c =>
            rw [hc] at hhead
            dsimp only at hhead
            cases hcv : c v with
            | ok pr =>
              obtain ⟨r, ws⟩ := pr
              refine ⟨(f, r) :: out', ws.map (fun w => (f, Issue.warn w)) ++ logs', ?_⟩
              simp only [convRecord, hk, Bool.false_eq_true, if_false, if_neg hfv,
                hc, hcv, hrest]
            | error e =>
              cases e with
              | valueError m =>
                refine ⟨out', (f, Issue.fatal (.valueError m)) :: logs', ?_⟩
                simp only [convRecord, hk, Bool.false_eq_true, if_false, if_neg hfv,
                  hc, hcv, hrest]
              | typeError m => rw [hcv] at hhead; simp at hhead
              | keyError m => rw [hcv] at hhead; simp at hhead
              | exception m => rw [hcv] at hhead; simp at hhead

/-- Skipping the referencing keys is invisible: the conversion of a record
equals the conversion of the record with those entries removed. -/
theorem convRecord_filter_refkeys {β α : Type} (isF : β → Bool) (falseVal : α)
    (convs : String → ConvEntry β α) :
    ∀ record, convRecord isF falseVal convs record =
      convRecord isF falseVal convs (record.filter (fun p => !(isRefKey p.1))) := by
  intro record
  induction record with
  | nil => rfl
  | cons p rest ih =>
    obtain ⟨k, v⟩ := p
    cases hk : isRefKey k with
    | true =>
      have hf : ((k, v) :: rest).filter (fun p => !(isRefKey p.1)) =
          rest.filter (fun p => !(isRefKey p.1)) := by simp [hk]
      rw [hf, ← ih]
      simp only [convRecord, hk, if_true]
    | false =>
      cases k with
      | none => simp [isRefKey] at hk
      | some f =>
        have hf : ((some f, v) :: rest).filter (fun p => !(isRefKey p.1)) =
            (some f, v) :: rest.filter (fun p => !(isRefKey p.1)) := by simp [hk]
        rw [hf]
        simp only [convRecord, hk, Bool.false_eq_true, if_false]
        rw [ih]

/-- A successful entry contribution carries the entry key, which is not a
referencing key. -/
theorem entryOut_some {β α : Type} (isF : β → Bool) (falseVal : α)
    (convs : String → ConvEntry β α) (q : Option String × β) (p : String × α)
    (h : entryOut isF falseVal convs q = some p) :
    q.1 = some p.1 ∧ isRefKey (some p.1) = false := by
  obtain ⟨k, v⟩ := q
  cases k with
  | none => simp [entryOut] at h
  | some f =>
    cases hk : isRefKey (some f) with
    | true => simp [entryOut, hk] at h
    | false =>
      have hf : p.1 = f := by
        simp only [entryOut, hk, Bool.false_eq_true, if_false] at h
        by_cases hfv : isF v
        · rw [if_pos hfv] at h
          injection h with h'
          rw [← h']
        · rw [if_neg hfv] at h
          cases hc : convs f with
          | absent => rw [hc] at h; exact absurd h (by simp)
          | noConv => rw [hc] at h; exact absurd h (by simp)
          | conv c =>
            rw [hc] at h
            dsimp only at h
            cases hcv : c v with
            | ok pr =>
              obtain ⟨r, ws⟩ := pr
              rw [hcv] at h
              dsimp only at h
              injection h with h'
              rw [← h']
            | error e => rw [hcv] at h; exact absurd h (by simp)
      exact ⟨by rw [hf], by rw [hf]; exact hk⟩

/-- A logged issue carries the entry key, which is not a referencing key. -/
theorem entryLogs_mem {β α : Type} (isF : β → Bool)
    (convs : String → ConvEntry β α) (q : Option String × β) (x : String × Issue)
    (h : x ∈ entryLogs isF convs q) :
    q.1 = some x.1 ∧ isRefKey (some x.1) = false := by
  obtain ⟨k, v⟩ := q
  cases k with
  | none => simp [entryLogs] at h
  | some f =>
    cases hk : isRefKey (some f) with
    | true => simp [entryLogs, hk] at h
    | false =>
      have hf : x.1 = f := by
        simp only [entryLogs, hk, Bool.false_eq_true, if_false] at h
        by_cases hfv : isF v
        · rw [if_pos hfv] at h; simp at h
        · rw [if_neg hfv] at h
          cases hc : convs f with
          | absent => rw [hc] at h; simp at h
          | noConv => rw [hc] at h; simp at h
          | conv c =>
            rw [hc] at h
            dsimp only at h
            cases hcv : c v with
            | ok pr =>
              obtain ⟨r, ws⟩ := pr
              rw [hcv] at h
              dsimp only at h
              obtain ⟨w, _, hwx⟩ := List.mem_map.mp h
              rw [← hwx]
            | error e =>
              cases e with
              | valueError m =>
                rw [hcv] at h
                dsimp only at h
                simp at h
                rw [h]
              | typeError m => rw [hcv] at h; simp at h
              | keyError m => rw [hcv] at h; simp at h
              | exception m => rw [hcv] at h; simp at h
      exact ⟨by rw [hf], by rw [hf]; exact hk⟩

/-- In a record with pairwise distinct keys, two entries with the same key
coincide. -/
theorem eq_of_mem_of_fst_nodup {κ γ : Type} {l : List (κ × γ)}
    (hnd : (l.map Prod.fst).Nodup) {p q : κ × γ}
    (hp : p ∈ l) (hq : q ∈ l) (hpq : p.1 = q.1) : p = q := by
  induction l with
  | nil => cases hp
  | cons a t ih =>
    simp only [List.map_cons, List.nodup_cons] at hnd
    obtain ⟨ha, ht⟩ := hnd
    rcases List.mem_cons.mp hp with rfl | hp'
    · rcases List.mem_cons.mp hq with rfl | hq'
      · rfl
      · exact absurd (hpq ▸ List.mem_map_of_mem Prod.fst hq') ha
    · rcases List.mem_cons.mp hq with rfl | hq'
      · exact absurd (hpq ▸ List.mem_map_of_mem Prod.fst hp') ha
      · exact ih ht hp' hq'

/-- A referencing-key test that fails names neither `id` nor `.id`. -/
theorem not_ref_of_isRefKey_false {s : String} (h : isRefKey (some s) = false) :
    s ≠ "id" ∧ s ≠ ".id" := by
  simp only [isRefKey, Bool.or_eq_false_iff, beq_eq_false_iff_ne, ne_eq] at h
  exact h

/-- Claim C10: the `for_model` conversion closure ignores every top-level
entry whose key is `None`, `id` or `.id`: converting a record equals
converting the record with those entries removed, and on success neither the
converted output nor the sink carries the keys `id` or `.id`. -/
theorem C10_referencing_keys_ignored {β α : Type} (isF : β → Bool)
    (falseVal : α) (convs : String → ConvEntry β α)
    (record : List (Option String × β)) :
    convRecord isF falseVal convs record =
      convRecord isF falseVal convs (record.filter (fun p => !(isRefKey p.1))) ∧
    ∀ out logs, convRecord isF falseVal convs record = .ok (out, logs) →
      (∀ p ∈ out, p.1 ≠ "id" ∧ p.1 ≠ ".id") ∧
      (∀ p ∈ logs, p.1 ≠ "id" ∧ p.1 ≠ ".id") := by
  refine ⟨convRecord_filter_refkeys isF falseVal convs record, ?_⟩
  intro out logs h
  obtain ⟨h1, h2⟩ := convRecord_shape isF falseVal convs record out logs h
  constructor
  · intro p hp
    rw [h1] at hp
    obtain ⟨q, _, hqo⟩ := List.mem_filterMap.mp hp
    exact not_ref_of_isRefKey_false (entryOut_some isF falseVal convs q p hqo).2
  · intro p hp
    rw [h2] at hp
    obtain ⟨q, _, hqm⟩ := List.mem_flatMap.mp hp
    exact not_ref_of_isRefKey_false (entryLogs_mem isF convs q p hqm).2

/-- A converter mapping every value to a string wrapper, for the witnesses. -/
def witConvGood : String → Except PyErr (OutValue × List String) :=
  fun v => .ok (OutValue.ostr v, [])

/-- A converter raising a fatal `ValueError`, for the witnesses. -/
def witConvBad : String → Except PyErr (OutValue × List String) :=
  fun _ => .error (.valueError "boom")

/-- A dispatch table failing on field `b` only, for the witnesses. -/
def witConvs : String → ConvEntry String OutValue := fun f =>
  if f = "b" then ConvEntry.conv witConvBad else ConvEntry.conv witConvGood

/-- Witness for C10 at a concrete record containing a `None`, an `id` and a
`.id` entry next to a plain field. -/
theorem C10_witness :
    (convRecord (fun s => s == "") (OutValue.obool false) witConvs
        [(none, "n"), (some "id", "x"), (some ".id", "y"), (some "a", "v")] =
      convRecord (fun s => s == "") (OutValue.obool false) witConvs
        ([(none, "n"), (some "id", "x"), (some ".id", "y"), (some "a", "v")].filter
          (fun p => !(isRefKey p.1)))) ∧
    ((∀ p ∈ [("a", OutValue.ostr "v")], p.1 ≠ "id" ∧ p.1 ≠ ".id") ∧
     (∀ p ∈ ([] : List (String × Issue)), p.1 ≠ "id" ∧ p.1 ≠ ".id")) :=
  ⟨(C10_referencing_keys_ignored (fun s => s == "") (OutValue.obool false)
      witConvs [(none, "n"), (some "id", "x"), (some ".id", "y"), (some "a", "v")]).1,
   (C10_referencing_keys_ignored (fun s => s == "") (OutValue.obool false)
      witConvs [(none, "n"), (some "id", "x"), (some ".id", "y"), (some "a", "v")]).2
      [("a", OutValue.ostr "v")] [] (by rfl)⟩

/-- Claim C2: in the `for_model` conversion closure, a field whose converter
raises a fatal `ValueError` is logged against that field on the sink and
omitted from the converted output, while the conversion of the record still
succeeds and every other successfully converted field is included. -/
theorem C2_value_error_isolated {β α : Type} (isF : β → Bool) (falseVal : α)
    (convs : String → ConvEntry β α) (record : List (Option String × β))
    (f : String) (v : β) (c : β → Except PyErr (α × List String)) (m : String)
    (hben : ∀ p ∈ record, entryBenign isF convs p = true)
    (hnd : (record.map Prod.fst).Nodup)
    (hmem : (some f, v) ∈ record)
    (href : isRefKey (some f) = false)
    (hfv : isF v = false)
    (hc : convs f = ConvEntry.conv c)
    (herr : c v = .error (.valueError m)) :
    ∃ out logs, convRecord isF falseVal convs record = .ok (out, logs) ∧
      (f, Issue.fatal (.valueError m)) ∈ logs ∧
      (∀ p ∈ out, p.1 ≠ f) ∧
      (∀ p ∈ record, ∀ g c' r ws, p.1 = some g → isRefKey (some g) = false →
        isF p.2 = false → convs g = ConvEntry.conv c' → c' p.2 = .ok (r, ws) →
        (g, r) ∈ out) := by
  obtain ⟨out, logs, hok⟩ := convRecord_ok_of_benign isF falseVal convs record hben
  obtain ⟨h1, h2⟩ := convRecord_shape isF falseVal convs record out logs hok
  refine ⟨out, logs, hok, ?_, ?_, ?_⟩
  · rw [h2]
    apply List.mem_flatMap.mpr
    refine ⟨(some f, v), hmem, ?_⟩
    simp [entryLogs, href, hfv, hc, herr]
  · intro p hp hpf
    rw [h1] at hp
    obtain ⟨q, hq, hqo⟩ := List.mem_filterMap.mp hp
    obtain ⟨hq1, _⟩ := entryOut_some isF falseVal convs q p hqo
    have hqe : q = (some f, v) :=
      eq_of_mem_of_fst_nodup hnd hq hmem (by rw [hq1, hpf])
    rw [hqe] at hqo
    simp [entryOut, href, hfv, hc, herr] at hqo
  · intro p hp g c' r ws hpg hgref hgfv hc' hcv'
    rw [h1]
    apply List.mem_filterMap.mpr
    refine ⟨p, hp, ?_⟩
    obtain ⟨k, v'⟩ := p
    simp only at hpg
    rw [hpg]
    simp only at hgfv
    simp [entryOut, hgref, hgfv, hc', hcv']

/-- Witness for C2: the field `b` raises, is logged and omitted, while the
sibling field `a` is converted and included. -/
theorem C2_witness :
    ∃ out logs, convRecord (fun s => s == "") (OutValue.obool false) witConvs
        [(some "a", "x"), (some "b", "y")] = .ok (out, logs) ∧
      ("b", Issue.fatal (.valueError "boom")) ∈ logs ∧
      (∀ p ∈ out, p.1 ≠ "b") ∧
      (∀ p ∈ [(some "a", "x"), (some "b", "y")], ∀ g c' r ws, p.1 = some g →
        isRefKey (some g) = false → (fun s => s == "") p.2 = false →
        witConvs g = ConvEntry.conv c' → c' p.2 = .ok (r, ws) →
        (g, r) ∈ out) :=
  C2_value_error_isolated (fun s => s == "") (OutValue.obool false) witConvs
    [(some "a", "x"), (some "b", "y")] "b" "y" witConvBad "boom"
    (by decide) (by decide) (by decide) (by decide) (by decide)
    (by rfl) (by rfl)

/-- Claim C3: converting a one-to-many field from `[{"id": "ref1"}]`, in any
environment where the external id `ref1` (namespaced to the current import
module) resolves to the existing target id 42, yields exactly the command
list `[LINK_TO 42, UPDATE 42 {}]` with no warnings, for every recursive
converter table of the target comodel. -/
theorem C3_o2m_link_update (env : Env)
    (subConvs : String → ConvEntry String OutValue)
    (h : env.refResolve (env.currentModule ++ "." ++ "ref1") = some 42) :
    str_to_one2many env subConvs [[(some "id", "ref1")]] =
      .ok ([Command.link_to 42, Command.update 42 []], []) := by
  have hdb : db_id_for env (some "id") "ref1" = .ok (42, []) := by
    have hr : db_id_for env (some "id") "ref1" =
        match env.refResolve (env.currentModule ++ "." ++ "ref1") with
        | some i => .ok (i, [])
        | none => .error (.valueError
            ("No matching record found for external id " ++ "ref1" ++ " in field %(field)s")) := rfl
    rw [hr, h]
  simp [str_to_one2many, o2mLoop, excludeRefFields, onlyRefFields, recGet,
    splitComma, splitOnChar, referencing_subfield, isRefKey, convRecordRaise, hdb]

/-- A concrete environment resolving `mod.ref1` to 42, for the witnesses. -/
def witEnvO2M : Env :=
  ⟨fun _ => false, fun s => if s = "mod.ref1" then some 42 else none,
   fun _ => [], "mod"⟩

/-- Witness for C3 at a concrete environment and converter table. -/
theorem C3_witness :
    str_to_one2many witEnvO2M (fun _ => ConvEntry.noConv) [[(some "id", "ref1")]] =
      .ok ([Command.link_to 42, Command.update 42 []], []) :=
  C3_o2m_link_update witEnvO2M (fun _ => ConvEntry.noConv) (by rfl)

/-- The id a single reference resolves to (0 as a placeholder on failure;
only used under a success hypothesis). -/
def resolvedId (env : Env) (sub : Option String) (r : String) : Nat :=
  match db_id_for env sub r with
  | .ok p => p.1
  | .error _ => 0

/-- When every reference resolves, the many-to-many resolution loop returns
the independent resolutions in order. -/
theorem m2mResolveLoop_ok (env : Env) (sub : Option String) :
    ∀ refs, (∀ r ∈ refs, isOkE (db_id_for env sub r) = true) →
      ∃ ws, m2mResolveLoop env sub refs =
        .ok (refs.map (resolvedId env sub), ws) := by
  intro refs
  induction refs with
  | nil => exact fun _ => ⟨[], rfl⟩
  | cons r rest ih =>
    intro hall
    have hr := hall r (List.mem_cons_self _ _)
    cases hdb : db_id_for env sub r with
    | error e => rw [hdb] at hr; simp [isOkE] at hr
    | ok p =>
      obtain ⟨i, ws1⟩ := p
      obtain ⟨ws, hws⟩ := ih (fun x hx => hall x (List.mem_cons_of_mem _ hx))
      refine ⟨ws1 ++ ws, ?_⟩
      have hri : resolvedId env sub r = i := by simp [resolvedId, hdb]
      simp only [m2mResolveLoop, hdb, hws, List.map_cons, hri]

/-- When some reference fails to resolve, the loop fails. -/
theorem m2mResolveLoop_err (env : Env) (sub : Option String) :
    ∀ refs, (∃ r ∈ refs, isOkE (db_id_for env sub r) = false) →
      ∃ e, m2mResolveLoop env sub refs = .error e := by
  intro refs
  induction refs with
  | nil => rintro ⟨r, hr, _⟩; cases hr
  | cons r rest ih =>
    rintro ⟨x, hx, hxf⟩
    rcases List.mem_cons.mp hx with rfl | hx'
    · cases hdb : db_id_for env sub x with
      | error e => exact ⟨e, by simp [m2mResolveLoop, hdb]⟩
      | ok p => rw [hdb] at hxf; simp [isOkE] at hxf
    · cases hdb : db_id_for env sub r with
      | error e => exact ⟨e, by simp [m2mResolveLoop, hdb]⟩
      | ok p =>
        obtain ⟨e, he⟩ := ih ⟨x, hx', hxf⟩
        obtain ⟨i, ws1⟩ := p
        exact ⟨e, by simp [m2mResolveLoop, hdb, he]⟩

/-- A singleton key set with a referencing key is unpacked untouched. -/
theorem referencing_subfield_single (sub : Option String)
    (h : isRefKey sub = true) :
    referencing_subfield [sub] = .ok (sub, []) := by
  simp [referencing_subfield, h]

/-- Claim C4: a many-to-many field given one nested record whose single
referencing sub-field holds a comma-separated reference list resolves each
reference independently and yields one `REPLACE_WITH` command carrying all
resolved ids; when any single reference fails to resolve, the whole field
conversion fails with a fatal error and no command list is produced. -/
theorem C4_m2m_all_or_nothing (env : Env) (sub : Option String) (csv : String)
    (hsub : isRefKey sub = true) :
    ((∀ r ∈ splitComma csv, isOkE (db_id_for env sub r) = true) →
      ∃ ws, str_to_many2many env [[(sub, csv)]] =
        .ok ([Command.replace_with ((splitComma csv).map (resolvedId env sub))], ws)) ∧
    ((∃ r ∈ splitComma csv, isOkE (db_id_for env sub r) = false) →
      ∃ e, str_to_many2many env [[(sub, csv)]] = .error e) := by
  have hrs : referencing_subfield ([(sub, csv)].map Prod.fst) = .ok (sub, []) := by
    simp only [List.map_cons, List.map_nil]
    exact referencing_subfield_single sub hsub
  have hget : (recGet [(sub, csv)] sub).getD "" = csv := by
    simp [recGet]
  constructor
  · intro hall
    obtain ⟨ws, hws⟩ := m2mResolveLoop_ok env sub (splitComma csv) hall
    refine ⟨ws, ?_⟩
    simp only [str_to_many2many, hrs, hget, hws, List.nil_append]
  · intro hex
    obtain ⟨e, he⟩ := m2mResolveLoop_err env sub (splitComma csv) hex
    exact ⟨e, by simp only [str_to_many2many, hrs, hget, he]⟩

/-- A concrete environment where only database ids 1 and 2 exist, for the
witnesses. -/
def witEnvM2M : Env :=
  ⟨fun n => n == 1 || n == 2, fun _ => none, fun _ => [], "mod"⟩

/-- Witness for C4: `1,2` resolves to `REPLACE_WITH [1, 2]`, while `1,3`
fails as a whole because `3` does not resolve. -/
theorem C4_witness :
    (∃ ws, str_to_many2many witEnvM2M [[(some ".id", "1,2")]] =
      .ok ([Command.replace_with [1, 2]], ws)) ∧
    (∃ e, str_to_many2many witEnvM2M [[(some ".id", "1,3")]] = .error e) := by
  constructor
  · obtain ⟨ws, hws⟩ :=
      (C4_m2m_all_or_nothing witEnvM2M (some ".id") "1,2" (by decide)).1 (by decide)
    rw [show (splitComma "1,2").map (resolvedId witEnvM2M (some ".id")) = [1, 2]
      from by decide] at hws
    exact ⟨ws, hws⟩
  · exact (C4_m2m_all_or_nothing witEnvM2M (some ".id") "1,3" (by decide)).2
      ⟨"3", by decide, by decide⟩

/-- Updating the inverse key of record `i` changes exactly what a fresh
lookup of `i` sees. -/
theorem find_setFk (i : Nat) (v : Option Nat) :
    ∀ recs : List (Nat × Option Nat),
      (recs.map (fun r => if r.1 = i then (r.1, v) else r)).find?
          (fun r => r.1 == i) =
        (recs.find? (fun r => r.1 == i)).map (fun _ => (i, v)) := by
  intro recs
  induction recs with
  | nil => rfl
  | cons r t ih =>
    obtain ⟨a, b⟩ := r
    by_cases ha : a = i
    · subst ha
      rw [List.map_cons, if_pos rfl, List.find?_cons_of_pos _ (by simp),
        List.find?_cons_of_pos _ (by simp)]
      rfl
    · rw [List.map_cons, if_neg ha, List.find?_cons_of_neg _ (by simp [ha]),
        List.find?_cons_of_neg _ (by simp [ha])]
      exact ih

/-- Lookup after a foreign-key update of the same record. -/
theorem o2mLookup_setFk_self (db : O2MDB) (i : Nat) (v : Option Nat) :
    o2mLookup (o2mSetFk db i v) i = (o2mLookup db i).map (fun _ => v) := by
  simp only [o2mLookup, o2mSetFk, find_setFk, Option.map_map]
  rfl

/-- Claim C6: a `LINK_TO` command applied twice with the same id through a
relational column `set` yields the same result as applying it once; for
many-to-many no duplicate pair is inserted when an identical link already
exists (the table is returned unchanged), and for one-to-many the inverse
foreign key is left unchanged when it already points at the source
record. -/
theorem C6_link_to_idempotent :
    (∀ (col : O2MCol) (src : Nat) (db : O2MDB) (i : Nat),
      o2mApply col src db [.link_to i, .link_to i] =
        o2mApply col src db [.link_to i]) ∧
    (∀ (src : Nat) (db : M2MDB) (i : Nat),
      m2mApply src db [.link_to i, .link_to i] = m2mApply src db [.link_to i]) ∧
    (∀ (src : Nat) (db : M2MDB) (i : Nat), (src, i) ∈ db.rel → i ∈ db.targets →
      m2mApplyCmd src db (.link_to i) = .ok db) ∧
    (∀ (col : O2MCol) (src : Nat) (db : O2MDB) (i : Nat),
      o2mLookup db i = some (some src) →
      o2mApplyCmd col src db (.link_to i) = .ok db) := by
  refine ⟨?_, ?_, ?_, ?_⟩
  · intro col src db i
    cases hl : o2mLookup db i with
    | none =>
      have h1 : o2mApplyCmd col src db (.link_to i) =
          .error (.exception "MissingError") := by
        simp [o2mApplyCmd, hl]
      simp [o2mApply, h1, bind, Except.bind]
    | some fk =>
      by_cases hfk : fkToNat fk ≠ src
      · have h1 : o2mApplyCmd col src db (.link_to i) =
            .ok (o2mSetFk db i (some src)) := by
          simp [o2mApplyCmd, hl, hfk]
        have h2 : o2mLookup (o2mSetFk db i (some src)) i = some (some src) := by
          rw [o2mLookup_setFk_self, hl]
          rfl
        have h3 : o2mApplyCmd col src (o2mSetFk db i (some src)) (.link_to i) =
            .ok (o2mSetFk db i (some src)) := by
          simp [o2mApplyCmd, h2, fkToNat]
        simp [o2mApply, h1, h3, bind, Except.bind]
      · have h1 : o2mApplyCmd col src db (.link_to i) = .ok db := by
          simp [o2mApplyCmd, hl, hfk]
        simp [o2mApply, h1, bind, Except.bind]
  · intro src db i
    by_cases ht : i ∈ db.targets
    · by_cases hr : (src, i) ∈ db.rel
      · have h1 : m2mApplyCmd src db (.link_to i) = .ok db := by
          simp [m2mApplyCmd, m2mLinkOne, ht, hr]
        simp [m2mApply, h1, bind, Except.bind]
      · have h1 : m2mApplyCmd src db (.link_to i) =
            .ok ⟨db.targets, db.rel ++ [(src, i)]⟩ := by
          simp [m2mApplyCmd, m2mLinkOne, ht, hr]
        have h2 : m2mApplyCmd src ⟨db.targets, db.rel ++ [(src, i)]⟩
            (.link_to i) = .ok ⟨db.targets, db.rel ++ [(src, i)]⟩ := by
          simp [m2mApplyCmd, m2mLinkOne, ht]
        simp [m2mApply, h1, h2, bind, Except.bind]
    · have h1 : m2mApplyCmd src db (.link_to i) =
          .error (.exception "IntegrityError") := by
        simp [m2mApplyCmd, m2mLinkOne, ht]
      simp [m2mApply, h1, bind, Except.bind]
  · intro src db i hr ht
    simp [m2mApplyCmd, m2mLinkOne, ht, hr]
  · intro col src db i hl
    simp [o2mApplyCmd, hl, fkToNat]

/-- Witness for C6: linking an already linked record leaves both a concrete
many-to-many table and a concrete one-to-many inverse key unchanged. -/
theorem C6_witness :
    m2mApplyCmd 5 ⟨[2], [(5, 2)]⟩ (.link_to 2) = .ok ⟨[2], [(5, 2)]⟩ ∧
    o2mApplyCmd ⟨false, fun _ => true⟩ 5 ⟨[(3, some 5)]⟩ (.link_to 3) =
      .ok ⟨[(3, some 5)]⟩ :=
  ⟨C6_link_to_idempotent.2.2.1 5 ⟨[2], [(5, 2)]⟩ 2 (by decide) (by decide),
   C6_link_to_idempotent.2.2.2 ⟨false, fun _ => true⟩ 5 ⟨[(3, some 5)]⟩ 3
     (by decide)⟩

/-- `unlink_all` empties the link set of the source record (under the
foreign-key invariant that every relation row points at an existing
target). -/
theorem m2mLinked_unlinkAll (src : Nat) (db : M2MDB)
    (hfk : ∀ p ∈ db.rel, p.2 ∈ db.targets) :
    m2mLinked (m2mUnlinkAll src db) src = [] := by
  simp only [m2mLinked, m2mUnlinkAll]
  have h : ∀ p ∈ db.rel.filter (fun p => !(p.1 == src && p.2 ∈ db.targets)),
      ¬ ((fun p => p.1 == src) p = true) := by
    intro p hp hps
    obtain ⟨hmem, hcond⟩ := List.mem_filter.mp hp
    have ht := hfk p hmem
    simp [hps, ht] at hcond
  rw [List.filter_eq_nil_iff.mpr h]
  rfl

/-- The `link` helper adds exactly the given ids to the link set, keeping
the target table unchanged, when every id names an existing target. -/
theorem m2mLink_spec (src : Nat) :
    ∀ (l : List Nat) (db : M2MDB), (∀ i ∈ l, i ∈ db.targets) →
      ∃ db', m2mLink src db l = .ok db' ∧ db'.targets = db.targets ∧
        (∀ x, x ∈ m2mLinked db' src ↔ x ∈ m2mLinked db src ∨ x ∈ l) := by
  intro l
  induction l with
  | nil =>
    intro db _
    exact ⟨db, rfl, rfl, fun x => by simp⟩
  | cons i rest ih =>
    intro db hall
    have hi : i ∈ db.targets := hall i (List.mem_cons_self _ _)
    by_cases hr : (src, i) ∈ db.rel
    · have hstep : m2mLinkOne src db i = .ok db := by
        simp [m2mLinkOne, hi, hr]
      obtain ⟨db', h1, h2, h3⟩ :=
        ih db (fun x hx => hall x (List.mem_cons_of_mem _ hx))
      refine ⟨db', ?_, h2, ?_⟩
      · simp only [m2mLink, List.foldlM_cons, hstep, bind, Except.bind]
        simpa [m2mLink] using h1
      · intro x
        have hi2 : i ∈ m2mLinked db src := by
          simp only [m2mLinked]
          exact List.mem_map.mpr ⟨(src, i), List.mem_filter.mpr ⟨hr, by simp⟩, rfl⟩
        rw [h3 x]
        constructor
        · rintro (h | h)
          · exact Or.inl h
          · exact Or.inr (List.mem_cons_of_mem _ h)
        · rintro (h | h)
          · exact Or.inl h
          · rcases List.mem_cons.mp h with rfl | h'
            · exact Or.inl hi2
            · exact Or.inr h'
    · have hstep : m2mLinkOne src db i = .ok ⟨db.targets, db.rel ++ [(src, i)]⟩ := by
        simp [m2mLinkOne, hi, hr]
      obtain ⟨db', h1, h2, h3⟩ :=
        ih ⟨db.targets, db.rel ++ [(src, i)]⟩
          (fun x hx => hall x (List.mem_cons_of_mem _ hx))
      refine ⟨db', ?_, h2, ?_⟩
      · simp only [m2mLink, List.foldlM_cons, hstep, bind, Except.bind]
        simpa [m2mLink] using h1
      · intro x
        rw [h3 x]
        have hlk : m2mLinked ⟨db.targets, db.rel ++ [(src, i)]⟩ src =
            m2mLinked db src ++ [i] := by
          simp [m2mLinked, List.filter_append]
        rw [hlk]
        simp only [List.mem_append, List.mem_singleton, List.mem_cons,
          List.not_mem_nil, or_false]
        exact or_assoc

/-- The command sequence `DELETE_ALL` followed by one `LINK_TO` per id runs
the same per-id link steps as the bulk `link`. -/
theorem foldlM_link_tos (src : Nat) :
    ∀ (l : List Nat) (db : M2MDB),
      List.foldlM (m2mApplyCmd src) db (l.map .link_to) =
        List.foldlM (m2mLinkOne src) db l := by
  intro l
  induction l with
  | nil => intro db; rfl
  | cons i rest ih =>
    intro db
    rw [List.map_cons, List.foldlM_cons, List.foldlM_cons]
    have hc : m2mApplyCmd src db (.link_to i) = m2mLinkOne src db i := rfl
    rw [hc]
    cases m2mLinkOne src db i with
    | ok d => simp only [bind, Except.bind]; exact ih d
    | error e => simp [bind, Except.bind]

/-- A record exists exactly when its id appears in the table. -/
theorem o2mExists_iff_mem (db : O2MDB) (j : Nat) :
    o2mExists db j = true ↔ j ∈ db.recs.map Prod.fst := by
  simp only [o2mExists, o2mLookup]
  constructor
  · intro h
    cases hf : db.recs.find? (fun r => r.1 == j) with
    | none => rw [hf] at h; simp at h
    | some q =>
      have hqm := List.mem_of_find?_eq_some hf
      have hqp := List.find?_some hf
      simp only [beq_iff_eq] at hqp
      exact hqp ▸ List.mem_map_of_mem Prod.fst hqm
  · intro hj
    obtain ⟨r, hr, hrj⟩ := List.mem_map.mp hj
    have hex : ∃ x ∈ db.recs, ((fun r => r.1 == j) x) = true :=
      ⟨r, hr, by simp [hrj]⟩
    rw [← List.find?_isSome] at hex
    cases hf : db.recs.find? (fun r => r.1 == j) with
    | none => rw [hf] at hex; simp at hex
    | some q => rfl

/-- Records whose key equals a looked-up id carry the looked-up value, in a
table with pairwise distinct ids. -/
theorem all_eq_of_lookup_nodup (db : O2MDB) (i : Nat) (fk : Option Nat)
    (hnd : (db.recs.map Prod.fst).Nodup) (hl : o2mLookup db i = some fk) :
    ∀ r ∈ db.recs, r.1 = i → r.2 = fk := by
  intro r hr hri
  simp only [o2mLookup] at hl
  cases hf : db.recs.find? (fun r => r.1 == i) with
  | none => rw [hf] at hl; simp at hl
  | some q =>
    rw [hf] at hl
    simp only [Option.map_some', Option.some.injEq] at hl
    have hqm := List.mem_of_find?_eq_some hf
    have hqp := List.find?_some hf
    simp only [beq_iff_eq] at hqp
    have hrq : r = q :=
      eq_of_mem_of_fst_nodup hnd hr hqm (by rw [hri, hqp])
    rw [hrq, hl]

/-- Rewriting the inverse key to the value it already has is the
identity. -/
theorem map_setFk_id (i : Nat) (v : Option Nat) :
    ∀ recs : List (Nat × Option Nat), (∀ r ∈ recs, r.1 = i → r.2 = v) →
      recs.map (fun r => if r.1 = i then (r.1, v) else r) = recs := by
  intro recs h
  induction recs with
  | nil => rfl
  | cons r t ih =>
    rw [List.map_cons, ih (fun x hx hxi => h x (List.mem_cons_of_mem _ hx) hxi)]
    by_cases hr : r.1 = i
    · have hv := h r (List.mem_cons_self _ _) hr
      rw [if_pos hr]
      have : (r.1, v) = r := by
        rw [← hv]
      rw [this]
    · rw [if_neg hr]

/-- Applying `LINK_TO` for each id of a list, under the non-cascade trivial
domain column, points the inverse key of exactly those records at the
source. -/
theorem o2m_link_tos (src : Nat) (hsrc : src ≠ 0) :
    ∀ (l : List Nat) (db : O2MDB),
      (∀ i ∈ l, o2mExists db i = true) → (db.recs.map Prod.fst).Nodup →
      List.foldlM (o2mApplyCmd ⟨false, fun _ => true⟩ src) db (l.map .link_to) =
        .ok ⟨db.recs.map (fun r => if r.1 ∈ l then (r.1, some src) else r)⟩ := by
  intro l
  induction l with
  | nil =>
    intro db _ _
    simp only [List.map_nil, List.foldlM_nil]
    have hfun : (fun r : Nat × Option Nat =>
        if r.1 ∈ ([] : List Nat) then (r.1, some src) else r) = fun r => r := by
      funext r
      simp
    rw [hfun, List.map_id']
    rfl
  | cons i rest ih =>
    intro db hex hnd
    have hi : o2mExists db i = true := hex i (List.mem_cons_self _ _)
    obtain ⟨fk, hfk⟩ : ∃ fk, o2mLookup db i = some fk := by
      cases hli : o2mLookup db i with
      | none => rw [o2mExists, hli] at hi; simp at hi
      | some fk => exact ⟨fk, rfl⟩
    have hstep : o2mApplyCmd ⟨false, fun _ => true⟩ src db (.link_to i) =
        .ok (o2mSetFk db i (some src)) := by
      by_cases hne : fkToNat fk ≠ src
      · simp [o2mApplyCmd, hfk, hne]
      · push_neg at hne
        have hfks : fk = some src := by
          cases fk with
          | none => exact absurd hne.symm hsrc
          | some n => rw [show n = src from hne]
        have hid : o2mSetFk db i (some src) = db := by
          have hall : ∀ r ∈ db.recs, r.1 = i → r.2 = some src := by
            intro r hr hri
            rw [all_eq_of_lookup_nodup db i fk hnd hfk r hr hri, hfks]
          show O2MDB.mk _ = db
          rw [map_setFk_id i (some src) db.recs hall]
        rw [hid]
        simp [o2mApplyCmd, hfk, hne]
    have hfst : (o2mSetFk db i (some src)).recs.map Prod.fst =
        db.recs.map Prod.fst := by
      simp only [o2mSetFk, List.map_map]
      apply List.map_congr_left
      intro r _
      by_cases hr : r.1 = i <;> simp [hr]
    have hex1 : ∀ j ∈ rest, o2mExists (o2mSetFk db i (some src)) j = true := by
      intro j hj
      rw [o2mExists_iff_mem, hfst, ← o2mExists_iff_mem]
      exact hex j (List.mem_cons_of_mem _ hj)
    have hnd1 : ((o2mSetFk db i (some src)).recs.map Prod.fst).Nodup := by
      rw [hfst]; exact hnd
    rw [List.map_cons, List.foldlM_cons, hstep]
    simp only [bind, Except.bind]
    rw [ih (o2mSetFk db i (some src)) hex1 hnd1]
    have hcomp : (o2mSetFk db i (some src)).recs.map
        (fun r => if r.1 ∈ rest then (r.1, some src) else r) =
        db.recs.map (fun r => if r.1 ∈ i :: rest then (r.1, some src) else r) := by
      simp only [o2mSetFk, List.map_map]
      apply List.map_congr_left
      intro r _
      by_cases hri : r.1 = i
      · by_cases hmem : r.1 ∈ rest <;>
          simp [hri, hmem, List.mem_cons]
      · by_cases hmem : r.1 ∈ rest <;>
          simp [hri, hmem, List.mem_cons]
    rw [hcomp]

/-- `DELETE_ALL` under the non-cascade trivial-domain column nullifies the
inverse key of every linked record. -/
theorem o2m_delete_all_nocascade (src : Nat) (db : O2MDB) :
    o2mApplyCmd ⟨false, fun _ => true⟩ src db .delete_all =
      .ok ⟨db.recs.map (fun r => if r.2 = some src then (r.1, none) else r)⟩ := by
  simp [o2mApplyCmd]

/-- The `REPLACE_WITH` branch of `one2many.set`, written out: point the
given ids at the source, then nullify every other linked record. -/
theorem o2m_replace_result (col : O2MCol) (src : Nat) (db : O2MDB)
    (l : List Nat) (hex : ∀ i ∈ l, o2mExists db i = true) :
    o2mApplyCmd col src db (.replace_with l) =
      .ok ⟨(db.recs.map (fun r => if r.1 ∈ l then (r.1, some src) else r)).map
        (fun r => if r.2 = some src ∧ r.1 ∉ (if l.isEmpty then [0] else l) then
          (r.1, none) else r)⟩ := by
  have hall : l.all (o2mExists db) = true := List.all_eq_true.mpr hex
  simp [o2mApplyCmd, hall]

/-- Membership in the link set of a mapped table, element-wise. -/
theorem mem_o2mLinked_map (g : Nat × Option Nat → Nat × Option Nat)
    (recs : List (Nat × Option Nat)) (src x : Nat) :
    x ∈ o2mLinked ⟨recs.map g⟩ src ↔
      ∃ r ∈ recs, (g r).2 = some src ∧ (g r).1 = x := by
  simp only [o2mLinked, List.filter_map, List.map_map, List.mem_map,
    List.mem_filter, Function.comp_apply, beq_iff_eq]
  constructor
  · rintro ⟨r, ⟨hr, hsnd⟩, hfst⟩
    exact ⟨r, hr, hsnd, hfst⟩
  · rintro ⟨r, hr, hsnd, hfst⟩
    exact ⟨r, ⟨hr, hsnd⟩, hfst⟩

/-- After `REPLACE_WITH`, the one-to-many link set is exactly the given id
set, for every deletion policy and domain, provided the given ids exist and
record ids are positive. -/
theorem o2m_replace_linked (col : O2MCol) (src : Nat) (db : O2MDB)
    (l : List Nat) (hex : ∀ i ∈ l, o2mExists db i = true)
    (hz : ∀ r ∈ db.recs, r.1 ≠ 0) :
    ∃ db', o2mApply col src db [.replace_with l] = .ok db' ∧
      (∀ x, x ∈ o2mLinked db' src ↔ x ∈ l) := by
  refine ⟨⟨db.recs.map ((fun r => if r.2 = some src ∧
      r.1 ∉ (if l.isEmpty then [0] else l) then (r.1, none) else r) ∘
      (fun r => if r.1 ∈ l then (r.1, some src) else r))⟩, ?_, ?_⟩
  · simp only [o2mApply, List.foldlM_cons, List.foldlM_nil,
      o2m_replace_result col src db l hex, bind, Except.bind, List.map_map]
    rfl
  · intro x
    rw [mem_o2mLinked_map]
    constructor
    · rintro ⟨r, hr, hsnd, hfst⟩
      simp only [Function.comp_apply] at hsnd hfst
      by_cases hil : r.1 ∈ l
      · have hle : l.isEmpty = false := by
          cases l with
          | nil => exact absurd hil (List.not_mem_nil _)
          | cons a t => rfl
        simp only [hil, if_true, hle, Bool.false_eq_true, if_false] at hfst
        rw [if_neg (by simp [hil])] at hfst
        rw [← hfst]
        exact hil
      · exfalso
        simp only [hil, if_false, Bool.false_eq_true] at hsnd hfst
        by_cases hsnd0 : r.2 = some src
        · cases hle : l.isEmpty with
          | true =>
            have hnin : r.1 ∉ (if l.isEmpty then [0] else l) := by
              rw [hle]
              simp [hz r hr]
            rw [if_pos ⟨hsnd0, hnin⟩] at hsnd
            simp at hsnd
          | false =>
            have hnin : r.1 ∉ (if l.isEmpty then [0] else l) := by
              rw [hle]
              simp [hil]
            rw [if_pos ⟨hsnd0, hnin⟩] at hsnd
            simp at hsnd
        · rw [if_neg (by rintro ⟨h1, _⟩; exact hsnd0 h1)] at hsnd
          exact hsnd0 hsnd
    · intro hx
      have hmem : x ∈ db.recs.map Prod.fst :=
        (o2mExists_iff_mem db x).mp (hex x hx)
      obtain ⟨r0, hr0, hrx⟩ := List.mem_map.mp hmem
      have hil : r0.1 ∈ l := by rw [hrx]; exact hx
      have hle : l.isEmpty = false := by
        cases l with
        | nil => exact absurd hx (List.not_mem_nil _)
        | cons a t => rfl
      refine ⟨r0, hr0, ?_, ?_⟩
      · simp only [Function.comp_apply, hil, if_true]
        rw [if_neg (by rw [hle]; simp [hil])]
      · simp only [Function.comp_apply, hil, if_true]
        rw [if_neg (by rw [hle]; simp [hil])]
        exact hrx

/-- For the non-cascade trivial-domain one-to-many column, `REPLACE_WITH`
coincides with `DELETE_ALL` followed by per-id `LINK_TO` commands, given
existing ids and positive record ids. -/
theorem o2m_replace_eq_delete_link (src : Nat) (db : O2MDB) (l : List Nat)
    (hsrc : src ≠ 0) (hex : ∀ i ∈ l, o2mExists db i = true)
    (hnd : (db.recs.map Prod.fst).Nodup) (hz : ∀ r ∈ db.recs, r.1 ≠ 0) :
    o2mApply ⟨false, fun _ => true⟩ src db [.replace_with l] =
      o2mApply ⟨false, fun _ => true⟩ src db (.delete_all :: l.map .link_to) := by
  have hfstD : (O2MDB.mk (db.recs.map
      (fun r => if r.2 = some src then (r.1, none) else r))).recs.map Prod.fst =
      db.recs.map Prod.fst := by
    simp only [List.map_map]
    apply List.map_congr_left
    intro r _
    by_cases hr : r.2 = some src <;> simp [hr]
  have hexD : ∀ i ∈ l, o2mExists ⟨db.recs.map
      (fun r => if r.2 = some src then (r.1, none) else r)⟩ i = true := by
    intro i hi
    rw [o2mExists_iff_mem, hfstD, ← o2mExists_iff_mem]
    exact hex i hi
  have hndD : ((O2MDB.mk (db.recs.map
      (fun r => if r.2 = some src then (r.1, none) else r))).recs.map
      Prod.fst).Nodup := by
    rw [hfstD]; exact hnd
  have hlink := o2m_link_tos src hsrc l _ hexD hndD
  simp only [o2mApply, List.foldlM_cons, List.foldlM_nil,
    o2m_replace_result ⟨false, fun _ => true⟩ src db l hex,
    o2m_delete_all_nocascade, bind, Except.bind, hlink]
  have hlists : (O2MDB.mk (db.recs.map
        (fun r => if r.2 = some src then (r.1, none) else r))).recs.map
        (fun r => if r.1 ∈ l then (r.1, some src) else r) =
      (db.recs.map (fun r => if r.1 ∈ l then (r.1, some src) else r)).map
        (fun r => if r.2 = some src ∧ r.1 ∉ (if l.isEmpty then [0] else l) then
          (r.1, none) else r) := by
    simp only [List.map_map]
    apply List.map_congr_left
    intro r hr
    simp only [Function.comp_apply]
    by_cases hsnd : r.2 = some src <;> by_cases hil : r.1 ∈ l
    · have hle : l.isEmpty = false := by
        cases l with
        | nil => exact absurd hil (List.not_mem_nil _)
        | cons a t => rfl
      simp [hsnd, hil, hle]
    · cases hle : l.isEmpty with
      | true => simp [hsnd, hil, hle, hz r hr]
      | false => simp [hsnd, hil, hle]
    · have hle : l.isEmpty = false := by
        cases l with
        | nil => exact absurd hil (List.not_mem_nil _)
        | cons a t => rfl
      simp [hsnd, hil, hle]
    · simp [hsnd, hil]
  rw [hlists]
  rfl

/-- Claim C1, amended: `REPLACE_WITH(ids)` always yields a final link set
equal to the given id set, for both column kinds; it is unconditionally
equivalent to `DELETE_ALL` followed by per-id `LINK_TO` for the many-to-many
column; and for the one-to-many column that equivalence holds when the
deletion policy is not cascade and no restricting static domain is
configured.  (Hypotheses: the given ids exist, record ids are positive and
pairwise distinct, the relation table satisfies its foreign-key
invariant.) -/
theorem C1_replace_with (col : O2MCol) (src : Nat) (db : O2MDB)
    (l : List Nat) (msrc : Nat) (mdb : M2MDB) :
    ((∀ i ∈ l, o2mExists db i = true) → (∀ r ∈ db.recs, r.1 ≠ 0) →
      ∃ db', o2mApply col src db [.replace_with l] = .ok db' ∧
        (∀ x, x ∈ o2mLinked db' src ↔ x ∈ l)) ∧
    ((∀ p ∈ mdb.rel, p.2 ∈ mdb.targets) → (∀ i ∈ l, i ∈ mdb.targets) →
      ∃ mdb', m2mApply msrc mdb [.replace_with l] = .ok mdb' ∧
        (∀ x, x ∈ m2mLinked mdb' msrc ↔ x ∈ l)) ∧
    (m2mApply msrc mdb [.replace_with l] =
      m2mApply msrc mdb (.delete_all :: l.map .link_to)) ∧
    (src ≠ 0 → (∀ i ∈ l, o2mExists db i = true) →
      (db.recs.map Prod.fst).Nodup → (∀ r ∈ db.recs, r.1 ≠ 0) →
      o2mApply ⟨false, fun _ => true⟩ src db [.replace_with l] =
        o2mApply ⟨false, fun _ => true⟩ src db
          (.delete_all :: l.map .link_to)) := by
  refine ⟨?_, ?_, ?_, ?_⟩
  · exact fun hex hz => o2m_replace_linked col src db l hex hz
  · intro hfk hl
    have h0 := m2mLinked_unlinkAll msrc mdb hfk
    obtain ⟨mdb', h1, _, h3⟩ := m2mLink_spec msrc l (m2mUnlinkAll msrc mdb) hl
    refine ⟨mdb', ?_, fun x => ?_⟩
    · simp only [m2mApply, List.foldlM_cons, List.foldlM_nil]
      have hcmd : m2mApplyCmd msrc mdb (.replace_with l) =
          m2mLink msrc (m2mUnlinkAll msrc mdb) l := rfl
      rw [hcmd, h1]
      rfl
    · rw [h3 x, h0]
      simp
  · simp only [m2mApply, List.foldlM_cons, List.foldlM_nil]
    have hdel : m2mApplyCmd msrc mdb .delete_all =
        .ok (m2mUnlinkAll msrc mdb) := rfl
    rw [hdel]
    simp only [bind, Except.bind]
    have hrepl : m2mApplyCmd msrc mdb (.replace_with l) =
        m2mLink msrc (m2mUnlinkAll msrc mdb) l := rfl
    rw [hrepl, foldlM_link_tos]
    have hml : m2mLink msrc (m2mUnlinkAll msrc mdb) l =
        List.foldlM (m2mLinkOne msrc) (m2mUnlinkAll msrc mdb) l := rfl
    rw [hml]
    cases List.foldlM (m2mLinkOne msrc) (m2mUnlinkAll msrc mdb) l with
    | ok d => rfl
    | error e => rfl
  · exact fun hsrc hex hnd hz =>
      o2m_replace_eq_delete_link src db l hsrc hex hnd hz

/-- Counterexample to C1 as stated: for a one-to-many column, `REPLACE_WITH`
is not equivalent to `DELETE_ALL` followed by `LINK_TO` when the deletion
policy is cascade (the sequence deletes the record and then fails to link
it), nor when a restricting static domain is configured (the sequence
leaves an out-of-domain record linked that `REPLACE_WITH` unlinks). -/
theorem C1_counterexample :
    ¬ (o2mApply ⟨true, fun _ => true⟩ 7 ⟨[(1, some 7)]⟩ [.replace_with [1]] =
       o2mApply ⟨true, fun _ => true⟩ 7 ⟨[(1, some 7)]⟩
         (.delete_all :: [1].map .link_to)) ∧
    ¬ (o2mApply ⟨false, fun r => r == 1⟩ 7 ⟨[(1, some 7), (2, some 7)]⟩
         [.replace_with []] =
       o2mApply ⟨false, fun r => r == 1⟩ 7 ⟨[(1, some 7), (2, some 7)]⟩
         (.delete_all :: ([] : List Nat).map .link_to)) := by
  constructor
  · intro h
    exact absurd h (by decide)
  · intro h
    exact absurd h (by decide)

/-- Witness for C1 at concrete inputs: a prior link set `{1, 2}` replaced
with `{1}` on both column kinds, and the one-to-many equivalence under the
non-cascade trivial-domain column. -/
theorem C1_witness :
    (∃ db', o2mApply ⟨false, fun _ => true⟩ 7 ⟨[(1, some 5), (2, some 7)]⟩
        [.replace_with [1]] = .ok db' ∧
      (∀ x, x ∈ o2mLinked db' 7 ↔ x ∈ [1])) ∧
    (∃ mdb', m2mApply 7 ⟨[1, 2], [(7, 2)]⟩ [.replace_with [1]] = .ok mdb' ∧
      (∀ x, x ∈ m2mLinked mdb' 7 ↔ x ∈ [1])) ∧
    o2mApply ⟨false, fun _ => true⟩ 7 ⟨[(1, some 5), (2, some 7)]⟩
        [.replace_with [1]] =
      o2mApply ⟨false, fun _ => true⟩ 7 ⟨[(1, some 5), (2, some 7)]⟩
        (.delete_all :: [1].map .link_to) :=
  ⟨(C1_replace_with ⟨false, fun _ => true⟩ 7 ⟨[(1, some 5), (2, some 7)]⟩ [1]
      7 ⟨[1, 2], [(7, 2)]⟩).1 (by decide) (by decide),
   (C1_replace_with ⟨false, fun _ => true⟩ 7 ⟨[(1, some 5), (2, some 7)]⟩ [1]
      7 ⟨[1, 2], [(7, 2)]⟩).2.1 (by decide) (by decide),
   (C1_replace_with ⟨false, fun _ => true⟩ 7 ⟨[(1, some 5), (2, some 7)]⟩ [1]
      7 ⟨[1, 2], [(7, 2)]⟩).2.2.2 (by decide) (by decide) (by decide)
      (by decide)⟩

end MahaErp
